import Mathlib

/-!
Verification development for the x2-colon timestamp engine
(`apps/server/src/parser.rs` and its API caller `apps/server/api/main.rs`).

The Rust code works on UTF-8 strings with byte offsets, so the model works
on `List Nat` of bytes.  Machine integers (`u32`) are modelled as `Nat`
with explicit reduction modulo `2^32` at the arithmetic operations where
the Rust program can overflow (release-mode wraparound semantics).
Fallible operations (string slicing at a non-boundary or reversed index
range, which panics in Rust) are modelled with `Option`, `none` standing
for a panic.
-/

/-- The modulus of Rust `u32` arithmetic. -/
def u32Mod : Nat := 4294967296

/-- UTF-8 encoding of one Unicode scalar value (by code point). -/
def encChar (n : Nat) : List Nat :=
  if n < 128 then [n]
  else if n < 2048 then [192 + n / 64, 128 + n % 64]
  else if n < 65536 then [224 + n / 4096, 128 + (n / 64) % 64, 128 + n % 64]
  else [240 + n / 262144, 128 + (n / 4096) % 64, 128 + (n / 64) % 64, 128 + n % 64]

/-- The UTF-8 bytes of a Lean string literal, used to write concrete inputs. -/
def strBytes (s : String) : List Nat :=
  s.data.foldr (fun c acc => encChar c.toNat ++ acc) []

/-- Byte at index `i` (`input.as_bytes().get(i)` in the Rust code). -/
def byteAt (l : List Nat) (i : Nat) : Option Nat := l.get? i

/-- ASCII fragment of Rust `char::is_whitespace`, used by `str::trim`.
The program only ever trims the text between two scanned ranges; in the
concrete inputs of the claims this text is ASCII. -/
def isWsByte (b : Nat) : Bool :=
  b == 32 || b == 9 || b == 10 || b == 11 || b == 12 || b == 13

/-- Rust `str::trim` (ASCII whitespace). -/
def trimBytes (l : List Nat) : List Nat :=
  ((l.dropWhile isWsByte).reverse.dropWhile isWsByte).reverse

/-- Total slice `input[a..b]` for indices that are known to be in order and
on char boundaries (used where the Rust indices provably are). -/
def sliceT (l : List Nat) (a b : Nat) : List Nat := (l.take b).drop a

/-- Rust `str::is_char_boundary`: start of a UTF-8 sequence or one past the
end; continuation bytes (128..191) are not boundaries. -/
def isCharBoundary (l : List Nat) (i : Nat) : Bool :=
  i == 0 || i == l.length ||
    (match byteAt l i with
     | some b => !(128 ≤ b && b < 192)
     | none => false)

/-- Rust slice `&input[a..b]`: panics (`none`) unless `a ≤ b`, both indices
are in bounds and both are char boundaries. -/
def rustSlice (l : List Nat) (a b : Nat) : Option (List Nat) :=
  if a ≤ b && isCharBoundary l a && isCharBoundary l b then some (sliceT l a b)
  else none

/-- Rust slice `&input[a..]`. -/
def rustSliceFrom (l : List Nat) (a : Nat) : Option (List Nat) :=
  if isCharBoundary l a then some (l.drop a) else none

/-- First code point of a UTF-8 byte sequence (`str::chars().next()`).
Only applied at char boundaries of valid UTF-8 text. -/
def utf8DecodeFirst : List Nat → Option Nat
  | [] => none
  | b :: bs =>
    if b < 128 then some b
    else if b < 224 then
      match bs with
      | b1 :: _ => some ((b - 192) * 64 + (b1 - 128))
      | [] => some (b - 192)
    else if b < 240 then
      match bs with
      | b1 :: b2 :: _ => some ((b - 224) * 4096 + (b1 - 128) * 64 + (b2 - 128))
      | _ => some 0
    else
      match bs with
      | b1 :: b2 :: b3 :: _ =>
        some ((b - 240) * 262144 + (b1 - 128) * 4096 + (b2 - 128) * 64 + (b3 - 128))
      | _ => some 0

/-- Rust `char::is_alphanumeric`, modelled exactly on the ASCII plane.
The general theorems apply it to ASCII text only; in the one non-ASCII
concrete trace of this development the program panics before reaching it. -/
def isAlnumCp (c : Nat) : Bool :=
  (48 ≤ c && c ≤ 57) || (65 ≤ c && c ≤ 90) || (97 ≤ c && c ≤ 122)

/-- Decimal digits of `n`, most significant first, as ASCII bytes
(Rust `format!("{}", n)`).  The fuel 12 covers every value below `10^12`,
in particular every `u32`-derived value the program prints. -/
def natDecAux : Nat → Nat → List Nat → List Nat
  | 0, _, acc => acc
  | fuel + 1, n, acc =>
    if n = 0 then acc else natDecAux fuel (n / 10) ((48 + n % 10) :: acc)

/-- Rust `format!("{}", n)` for the `Nat` values the program prints. -/
def natDec (n : Nat) : List Nat :=
  if n = 0 then [48] else natDecAux 12 n []

/-- Rust `format!("{:02}", n)`: zero-pad the decimal form to width 2. -/
def pad2 (n : Nat) : List Nat :=
  if n < 10 then [48, 48 + n] else natDec n

-- #### Timestamp literal parsing (parser.rs lines 12-74)

/-- Struct `Timestamp` (parser.rs line 12), fields are `u32`. -/
structure Timestamp where
  hours : Nat
  minutes : Nat
  seconds : Nat
deriving Repr, DecidableEq

/-- Method `Timestamp::to_seconds` (parser.rs line 39): `u32` arithmetic,
hence reduced modulo `2^32`. -/
def Timestamp.to_seconds (t : Timestamp) : Nat :=
  (t.hours * 3600 + t.minutes * 60 + t.seconds) % u32Mod

/-- Helper for nom `tag`: strip the literal `t` from the front of `l`. -/
def stripTag : List Nat → List Nat → Option (List Nat)
  | [], l => some l
  | _ :: _, [] => none
  | t :: ts, b :: bs => if b = t then stripTag ts bs else none

/-- Function `parse_number` (parser.rs line 44): nom `digit1` followed by
`str::parse::<u32>`, which fails above `u32::MAX`. -/
def parse_number (l : List Nat) : Option (List Nat × Nat) :=
  let ds := l.takeWhile (fun b => 48 ≤ b && b ≤ 57)
  if ds.isEmpty then none
  else
    let v := ds.foldl (fun acc b => acc * 10 + (b - 48)) 0
    if v < u32Mod then some (l.dropWhile (fun b => 48 ≤ b && b ≤ 57), v) else none

/-- Function `parse_hms` (parser.rs line 49): `H:MM:SS`. -/
def parse_hms (l : List Nat) : Option (List Nat × Timestamp) :=
  match parse_number l with
  | none => none
  | some (r1, h) =>
    match stripTag [58] r1 with
    | none => none
    | some r2 =>
      match parse_number r2 with
      | none => none
      | some (r3, m) =>
        match stripTag [58] r3 with
        | none => none
        | some r4 =>
          match parse_number r4 with
          | none => none
          | some (r5, s) => some (r5, ⟨h, m, s⟩)

/-- Function `parse_ms` (parser.rs line 61): `M:SS`. -/
def parse_ms (l : List Nat) : Option (List Nat × Timestamp) :=
  match parse_number l with
  | none => none
  | some (r1, m) =>
    match stripTag [58] r1 with
    | none => none
    | some r2 =>
      match parse_number r2 with
      | none => none
      | some (r3, s) => some (r3, ⟨0, m, s⟩)

/-- Function `parse_timestamp` (parser.rs line 67): nom `alt`, committed
choice — `H:MM:SS` first, `M:SS` only if the first fails. -/
def parse_timestamp (l : List Nat) : Option (List Nat × Timestamp) :=
  match parse_hms l with
  | some r => some r
  | none => parse_ms l

/-- Function `parse_dash` (parser.rs line 72): hyphen, en dash (UTF-8
`226 128 147`) or em dash (`226 128 148`), tried in that order. -/
def parse_dash : List Nat → Option (List Nat)
  | 45 :: r => some r
  | 226 :: 128 :: 147 :: r => some r
  | 226 :: 128 :: 148 :: r => some r
  | _ => none

/-- Enum `RangeError` (parser.rs line 76). -/
inductive RangeError where
  | none
  | endBeforeStart
  | invalidSeconds (v : Nat)
  | invalidMinutes (v : Nat)
deriving Repr, DecidableEq

/-- Struct `RangeResult` (parser.rs line 83). -/
structure RangeResult where
  duration : Nat
  error : RangeError
deriving Repr, DecidableEq

/-- The validation block of `parse_range` (parser.rs lines 95-118),
performed after a successful strict parse of `(start-end)`. -/
def rangeResultOf (start tEnd : Timestamp) : RangeResult :=
  if start.minutes > 59 then ⟨0, RangeError.invalidMinutes start.minutes⟩
  else if tEnd.minutes > 59 then ⟨0, RangeError.invalidMinutes tEnd.minutes⟩
  else if start.seconds > 59 then ⟨0, RangeError.invalidSeconds start.seconds⟩
  else if tEnd.seconds > 59 then ⟨0, RangeError.invalidSeconds tEnd.seconds⟩
  else if tEnd.to_seconds < start.to_seconds then ⟨0, RangeError.endBeforeStart⟩
  else ⟨tEnd.to_seconds - start.to_seconds, RangeError.none⟩

/-- Function `parse_range` (parser.rs line 88): strict pattern
`"(" TIMESTAMP DASH TIMESTAMP ")"`, then the validation block. -/
def parse_range (l : List Nat) : Option (List Nat × RangeResult) :=
  match stripTag [40] l with
  | none => none
  | some r1 =>
    match parse_timestamp r1 with
    | none => none
    | some (r2, start) =>
      match parse_dash r2 with
      | none => none
      | some r3 =>
        match parse_timestamp r3 with
        | none => none
        | some (r4, tEnd) =>
          match stripTag [41] r4 with
          | none => none
          | some r5 => some (r5, rangeResultOf start tEnd)

-- #### Range scanning (parser.rs lines 121-164)

/-- Struct `ParsedRange` (parser.rs line 122). -/
structure ParsedRange where
  start_pos : Nat
  end_pos : Nat
  text : List Nat
  duration : Nat
  error : RangeError
deriving Repr, DecidableEq

/-- Index (offset by `k`) of the first `'('` byte, modelling
`str::find('(')` on a suffix. -/
def findParen : List Nat → Nat → Option Nat
  | [], _ => none
  | b :: bs, k => if b = 40 then some k else findParen bs (k + 1)

/-- Absolute index of the first `'('` at or after position `s`
(`input[search_start..].find('(')` plus the offset arithmetic). -/
def findFrom (input : List Nat) (s : Nat) : Option Nat :=
  findParen (input.drop s) s

/-- Split at the first `')'`: the bytes strictly before it and those after. -/
def splitAtCloseParen : List Nat → Option (List Nat × List Nat)
  | [] => none
  | b :: bs =>
    if b = 41 then some ([], bs)
    else
      match splitAtCloseParen bs with
      | some (c, r) => some (b :: c, r)
      | none => none

/-- Bytes after the first `':'`. -/
def afterColon : List Nat → Option (List Nat)
  | [] => none
  | b :: bs => if b = 58 then some bs else afterColon bs

/-- Bytes after the first dash glyph (`-`, en dash or em dash). -/
def afterDash : List Nat → Option (List Nat)
  | [] => none
  | b :: bs =>
    match parse_dash (b :: bs) with
    | some r => some r
    | none => afterDash bs

/-- Whether the bytes contain, in order, a `':'`, then a dash glyph, then a
`':'`.  Greedy first-occurrence search is equivalent to the existence of
such a triple: a `':'` or `'-'` byte is never part of a longer UTF-8
sequence, and after a three-byte dash the next `':'` is automatically past
its continuation bytes. -/
def hasColonDashColon (content : List Nat) : Bool :=
  match afterColon content with
  | none => false
  | some r1 =>
    match afterDash r1 with
    | none => false
    | some r2 =>
      match afterColon r2 with
      | some _ => true
      | none => false

/-- The loose heuristic regex `\([^)]*:[^)]*[-–—][^)]*:[^)]*\)`
(parser.rs line 135) matched at the start of `l`, returning the matched
substring.  Because `[^)]` cannot cross a `')'`, a match starting at `l[0]`
must consume exactly the segment up to and including the first `')'`; and
`regex::find` returns a match with `m.start() == 0` exactly when such an
anchored match exists, since `find` yields the leftmost match. -/
def looseAt (l : List Nat) : Option (List Nat) :=
  match l with
  | 40 :: rest =>
    match splitAtCloseParen rest with
    | some (content, _) =>
      if hasColonDashColon content then some (40 :: (content ++ [41])) else none
    | none => none
  | _ => none

/-- The scanning loop of `find_all_ranges` (parser.rs lines 137-161).
`fuel` is a recursion budget: the Rust cursor strictly increases and stops
past the last `'('`, so `input.length + 1` steps always suffice; the `0`
case is never reached from `find_all_ranges`.  An `Err` return models the
hard `MalformedRange` failure carrying the offending substring. -/
def scanAux (input : List Nat) : Nat → Nat → Except (List Nat) (List ParsedRange)
  | 0, _ => Except.ok []
  | fuel + 1, s =>
    match findFrom input s with
    | none => Except.ok []
    | some abs =>
      let remaining := input.drop abs
      match parse_range remaining with
      | some (rest, result) =>
        let len := remaining.length - rest.length
        match scanAux input fuel (abs + len) with
        | Except.error e => Except.error e
        | Except.ok rs =>
          Except.ok (⟨abs, abs + len, remaining.take len,
                      result.duration, result.error⟩ :: rs)
      | none =>
        match looseAt remaining with
        | some mtext => Except.error mtext
        | none => scanAux input fuel (abs + 1)

/-- Function `find_all_ranges` (parser.rs line 130). -/
def find_all_ranges (input : List Nat) : Except (List Nat) (List ParsedRange) :=
  scanAux input (input.length + 1) 0

-- #### Duration aggregation (parser.rs lines 166-235)

/-- Function `format_duration` (parser.rs line 166):
`format!("{}:{:02}", seconds / 60, seconds % 60)`. -/
def format_duration (seconds : Nat) : List Nat :=
  natDec (seconds / 60) ++ 58 :: pad2 (seconds % 60)

/-- Struct `DurationResult` (parser.rs line 27). -/
structure DurationResult where
  seconds : Nat
  format : List Nat
deriving Repr, DecidableEq

/-- Struct `LineResult` (parser.rs line 20). -/
structure LineResult where
  id : Nat
  input : List Nat
  result : DurationResult
deriving Repr, DecidableEq

/-- Struct `ParseOutput` (parser.rs line 33). -/
structure ParseOutput where
  lines : List LineResult
  total : DurationResult
deriving Repr, DecidableEq

/-- The error strings `calculate_durations` can produce, kept structured:
the formatted message names the offending literal and, for the bound
violations, the offending value. -/
inductive CalcError where
  | malformed (text : List Nat)
  | endBeforeStart (text : List Nat)
  | invalidMinutes (text : List Nat) (v : Nat)
  | invalidSeconds (text : List Nat) (v : Nat)
deriving Repr, DecidableEq

/-- The validation sweep of `calculate_durations` (parser.rs lines
176-189): the first range carrying a defect aborts the call. -/
def firstDefect : List ParsedRange → Option CalcError
  | [] => none
  | r :: rest =>
    match r.error with
    | RangeError.endBeforeStart => some (CalcError.endBeforeStart r.text)
    | RangeError.invalidMinutes v => some (CalcError.invalidMinutes r.text v)
    | RangeError.invalidSeconds v => some (CalcError.invalidSeconds r.text v)
    | RangeError.none => firstDefect rest

/-- `Vec::join(" + ")` on the group texts. -/
def joinPlus : List (List Nat) → List Nat
  | [] => []
  | [t] => t
  | t :: t2 :: ts => t ++ ([32, 43, 32] ++ joinPlus (t2 :: ts))

/-- One emitted `LineResult` (parser.rs lines 214-222). -/
def mkLine (id : Nat) (texts : List (List Nat)) (dur : Nat) : LineResult :=
  ⟨id, joinPlus texts, ⟨dur, format_duration dur⟩⟩

/-- The grouping loop of `calculate_durations` (parser.rs lines 195-226):
the state `(texts, dur, last_end, id)` is the currently open group; a
following range whose separating text trims to `"+"` is merged into it
(`dur` accumulates with `u32` wraparound), otherwise the group is emitted
and a new one opened. -/
def groupAux (input : List Nat) :
    List ParsedRange → List (List Nat) → Nat → Nat → Nat → List LineResult
  | [], texts, dur, _, id => [mkLine id texts dur]
  | r2 :: rest, texts, dur, last_end, id =>
    if trimBytes (sliceT input last_end r2.start_pos) = [43] then
      groupAux input rest (texts ++ [r2.text]) ((dur + r2.duration) % u32Mod)
        r2.end_pos id
    else
      mkLine id texts dur ::
        groupAux input rest [r2.text] r2.duration r2.end_pos (id + 1)

/-- The lines produced by the grouping loop. -/
def groupLines (input : List Nat) : List ParsedRange → List LineResult
  | [] => []
  | r :: rest => groupAux input rest [r.text] r.duration r.end_pos 1

/-- `grand_total` accumulation (parser.rs line 223), `u32` wraparound. -/
def grandTotal (lines : List LineResult) : Nat :=
  lines.foldl (fun a l => (a + l.result.seconds) % u32Mod) 0

/-- Function `calculate_durations` (parser.rs line 172). -/
def calculate_durations (input : List Nat) : Except CalcError ParseOutput :=
  match find_all_ranges input with
  | Except.error e => Except.error (CalcError.malformed e)
  | Except.ok ranges =>
    match firstDefect ranges with
    | some e => Except.error e
    | none =>
      let lines := groupLines input ranges
      Except.ok ⟨lines, ⟨grandTotal lines, format_duration (grandTotal lines)⟩⟩

-- #### API layer (api/main.rs lines 45-58)

/-- Character count of a byte string (`str::chars().count()`), as used by
the `validator` crate's `length` rule: one char per non-continuation byte. -/
def charCount (l : List Nat) : Nat :=
  (l.filter (fun b => b < 128 || 192 ≤ b)).length

/-- Outcome of the `/timestamp` handler, abstracting the HTTP pairs:
`noTimestamps` is the 400 response `"No valid timestamps found"`. -/
inductive ApiResult where
  | validationError
  | calcError (e : CalcError)
  | noTimestamps
  | success (out : ParseOutput)
deriving Repr, DecidableEq

/-- Handler `timestamp` (api/main.rs lines 45-58): `content` must have at
least 2 chars; a `calculate_durations` error maps to a 400 with its
message; an empty `lines` maps to the 400 `"No valid timestamps found"`. -/
def timestamp_route (content : List Nat) : ApiResult :=
  if charCount content < 2 then ApiResult.validationError
  else
    match calculate_durations content with
    | Except.error e => ApiResult.calcError e
    | Except.ok out =>
      if out.lines.isEmpty then ApiResult.noTimestamps else ApiResult.success out

-- #### Script cleaning (parser.rs lines 237-315)

/-- Steps of one iteration of the cleaning loop after the excision span is
fixed (parser.rs lines 272-303): extend `skip_to` over one trailing space,
slice the retained text (panics if `text_start > text_end`), read the
characters adjacent to the excision (the left read slices at
`text_end - 1`, which panics when that index is not a char boundary), and
append a single joining space when both neighbours are alphanumeric and no
space was swallowed.  Returns the emitted piece and the new cursor. -/
def pieceAndSpace (input : List Nat) (text_start text_end : Nat)
    (before_space : Bool) (skip_to1 : Nat) : Option (List Nat × Nat) :=
  let after_space := decide (skip_to1 < input.length) &&
    (byteAt input skip_to1 == some 32)
  let skip_to := if after_space then skip_to1 + 1 else skip_to1
  match rustSlice input text_start text_end with
  | none => none
  | some piece =>
    let bcM : Option (Option Nat) :=
      if 0 < text_end then
        match rustSliceFrom input (text_end - 1) with
        | none => none
        | some tail => some (utf8DecodeFirst tail)
      else some none
    let acM : Option (Option Nat) :=
      if skip_to < input.length then
        match rustSliceFrom input skip_to with
        | none => none
        | some tail => some (utf8DecodeFirst tail)
      else some none
    match bcM, acM with
    | some bc, some ac =>
      let needs_space := bc.isSome && ac.isSome &&
        (match bc with | some c => isAlnumCp c | none => false) &&
        (match ac with | some c => isAlnumCp c | none => false) &&
        !before_space && !after_space
      some (piece ++ (if needs_space then [32] else []), skip_to)
    | _, _ => none

/-- The cleaning loop of `clean_script` (parser.rs lines 250-309),
including the final `result.push_str(&input[last_pos..])`.  A range is
joined with its immediate successor when the text between them trims to
`"+"` (a single `if`, one step of lookahead). -/
def cleanLoop (input : List Nat) : List ParsedRange → Nat → Option (List Nat)
  | [], last_pos => rustSliceFrom input last_pos
  | r :: rest, last_pos =>
    let text_end0 := r.start_pos
    let before_space := decide (0 < text_end0) &&
      (byteAt input (text_end0 - 1) == some 32)
    let text_end := if before_space then text_end0 - 1 else text_end0
    let joinNext : Bool :=
      match rest with
      | r2 :: _ => decide (trimBytes (sliceT input r.end_pos r2.start_pos) = [43])
      | [] => false
    if joinNext then
      match rest with
      | r2 :: rest2 =>
        match pieceAndSpace input last_pos text_end before_space r2.end_pos with
        | none => none
        | some (piece, skip) =>
          match cleanLoop input rest2 skip with
          | none => none
          | some tail => some (piece ++ tail)
      | [] => none
    else
      match pieceAndSpace input last_pos text_end before_space r.end_pos with
      | none => none
      | some (piece, skip) =>
        match cleanLoop input rest skip with
        | none => none
        | some tail => some (piece ++ tail)

/-- `result.replace(" + ", " ")`: leftmost non-overlapping occurrences,
the replacement text is not rescanned (parser.rs line 312). -/
def replaceSpacePlusSpace : List Nat → List Nat
  | 32 :: 43 :: 32 :: rest => 32 :: replaceSpacePlusSpace rest
  | b :: rest => b :: replaceSpacePlusSpace rest
  | [] => []

/-- `result.replace("+ ", "")` (parser.rs line 312). -/
def replacePlusSpace : List Nat → List Nat
  | 43 :: 32 :: rest => replacePlusSpace rest
  | b :: rest => b :: replacePlusSpace rest
  | [] => []

/-- `result.replace(" +", "")` (parser.rs line 312). -/
def replaceSpacePlus : List Nat → List Nat
  | 32 :: 43 :: rest => replaceSpacePlus rest
  | b :: rest => b :: replaceSpacePlus rest
  | [] => []

/-- Function `clean_script` (parser.rs line 237).  `none` models a panic;
a scan failure or an empty range list returns the input verbatim. -/
def clean_script (input : List Nat) : Option (List Nat) :=
  match find_all_ranges input with
  | Except.error _ => some input
  | Except.ok [] => some input
  | Except.ok (r :: rs) =>
    match cleanLoop input (r :: rs) 0 with
    | none => none
    | some body =>
      some (replaceSpacePlus (replacePlusSpace (replaceSpacePlusSpace body)))

-- #### Definitions taken from the specification text, for comparison

/-- Spec 3 / 4.3: the exact total seconds of a timestamp,
`hours*3600 + minutes*60 + seconds`, with no machine-width reduction. -/
def toSecondsExact (t : Timestamp) : Nat :=
  t.hours * 3600 + t.minutes * 60 + t.seconds

/-- Spec 4.3: the validator cascade in its stated precedence, first match
wins: start minutes, end minutes, start seconds, end seconds, ordering. -/
def validateSpec (start tEnd : Timestamp) : RangeResult :=
  if 59 < start.minutes then ⟨0, RangeError.invalidMinutes start.minutes⟩
  else if 59 < tEnd.minutes then ⟨0, RangeError.invalidMinutes tEnd.minutes⟩
  else if 59 < start.seconds then ⟨0, RangeError.invalidSeconds start.seconds⟩
  else if 59 < tEnd.seconds then ⟨0, RangeError.invalidSeconds tEnd.seconds⟩
  else if tEnd.to_seconds < start.to_seconds then ⟨0, RangeError.endBeforeStart⟩
  else ⟨tEnd.to_seconds - start.to_seconds, RangeError.none⟩

/-- Spec 4.4 step 4: two consecutive ranges are plus-joined when the text
strictly between them trims to exactly a single `+`. -/
def plusJoinedPos (input : List Nat) (e : Nat) (b : ParsedRange) : Prop :=
  trimBytes (sliceT input e b.start_pos) = [43]

instance (input : List Nat) (e : Nat) (b : ParsedRange) :
    Decidable (plusJoinedPos input e b) := by
  unfold plusJoinedPos; infer_instance

/-- Spec 4.4 step 4, declaratively: the partition of the scanned ranges
into maximal runs of consecutively plus-joined ranges. -/
def chunksSpec (input : List Nat) : List ParsedRange → List (List ParsedRange)
  | [] => []
  | r :: rest =>
    match chunksSpec input rest with
    | [] => [[r]]
    | c :: cs =>
      match c with
      | [] => [r] :: c :: cs
      | r2 :: _ =>
        if plusJoinedPos input r.end_pos r2 then (r :: c) :: cs
        else [r] :: c :: cs

/-- The seconds of a merged Line: the members' durations summed in the
program's `u32` accumulator, that is modulo `2^32`. -/
def wsum (c : List ParsedRange) : Nat :=
  c.foldl (fun a r => (a + r.duration) % u32Mod) 0

/-- The Line a run of plus-joined ranges is merged into: the member texts
rejoined with a normalized `" + "`, and the accumulated seconds. -/
def lineOf (id : Nat) (c : List ParsedRange) : LineResult :=
  ⟨id, joinPlus (c.map (fun r => r.text)), ⟨wsum c, format_duration (wsum c)⟩⟩

/-- Lines from the runs, with ids counted from `id` per emitted Line. -/
def linesSpecAux (id : Nat) : List (List ParsedRange) → List LineResult
  | [] => []
  | c :: cs => lineOf id c :: linesSpecAux (id + 1) cs

/-- Spec 4.4 steps 4: the Lines of an input, one per maximal plus-joined
run, ids starting at 1. -/
def linesSpec (input : List Nat) (ranges : List ParsedRange) : List LineResult :=
  linesSpecAux 1 (chunksSpec input ranges)

/-- The partition of `G ++ rest` into maximal runs, given that `G` is a
still-open run whose last member ends at byte offset `lastEnd`. -/
def chunksCont (input : List Nat) (G : List ParsedRange) (lastEnd : Nat)
    (rest : List ParsedRange) : List (List ParsedRange) :=
  match chunksSpec input rest with
  | [] => [G]
  | c :: cs =>
    match c with
    | [] => G :: c :: cs
    | r2 :: _ =>
      if plusJoinedPos input lastEnd r2 then (G ++ c) :: cs else G :: c :: cs

/-- The canonical decimal numeral of `n` (ASCII bytes, most significant
digit first), via Mathlib's `Nat.digits`. -/
def decRep (n : Nat) : List Nat :=
  ((Nat.digits 10 n).map (fun d => 48 + d)).reverse

/-- The decimal numeral including the `"0"` for zero. -/
def decRepSpec (n : Nat) : List Nat :=
  if n = 0 then [48] else decRep n

/-- Spec 4.4: the seconds field zero-padded to width 2. -/
def pad2Spec (n : Nat) : List Nat :=
  if n < 10 then 48 :: decRepSpec n else decRepSpec n

/-- Spec 4.4 formatting law: minutes = total div 60 (unbounded), colon,
seconds = total mod 60 zero-padded to width 2; no hours component. -/
def formatSpec (s : Nat) : List Nat :=
  decRepSpec (s / 60) ++ 58 :: pad2Spec (s % 60)

-- #### Helper lemmas

theorem findParen_le (l : List Nat) : ∀ (k j : Nat), findParen l k = some j → k ≤ j := by
  induction l with
  | nil => intro k j h; simp [findParen] at h
  | cons b bs ih =>
    intro k j h
    simp only [findParen] at h
    split at h
    · injection h with h'; omega
    · have := ih (k + 1) j h; omega

theorem findFrom_le (input : List Nat) (s abs : Nat) (h : findFrom input s = some abs) :
    s ≤ abs :=
  findParen_le (input.drop s) s abs h

theorem dropWhile_len_le (p : Nat → Bool) (l : List Nat) :
    (l.dropWhile p).length ≤ l.length := by
  induction l with
  | nil => simp
  | cons b bs ih =>
    by_cases h : p b
    · rw [List.dropWhile_cons, if_pos h]
      exact Nat.le_trans ih (by simp)
    · rw [List.dropWhile_cons, if_neg h]

theorem stripTag_length : ∀ (t l r : List Nat), stripTag t l = some r →
    r.length + t.length = l.length := by
  intro t
  induction t with
  | nil =>
    intro l r h
    simp only [stripTag] at h
    injection h with h'
    subst h'
    simp
  | cons x ts ih =>
    intro l r h
    cases l with
    | nil => simp [stripTag] at h
    | cons b bs =>
      simp only [stripTag] at h
      split at h
      · have := ih bs r h
        simp only [List.length_cons]
        omega
      · exact absurd h (by simp)

theorem parse_number_le (l r : List Nat) (v : Nat) (h : parse_number l = some (r, v)) :
    r.length ≤ l.length := by
  simp only [parse_number] at h
  split at h
  · exact absurd h (by simp)
  · split at h
    · rw [Option.some.injEq, Prod.mk.injEq] at h
      obtain ⟨h1, -⟩ := h
      rw [← h1]
      exact dropWhile_len_le _ l
    · exact absurd h (by simp)


theorem parse_hms_le : ∀ (l r : List Nat) (t : Timestamp), parse_hms l = some (r, t) →
    r.length ≤ l.length := by
  intro l r t h
  unfold parse_hms at h
  rcases h1 : parse_number l with _ | ⟨r1, n1⟩ <;> rw [h1] at h
  · exact absurd h (by simp)
  dsimp only at h
  rcases h2 : stripTag [58] r1 with _ | r2 <;> rw [h2] at h
  · exact absurd h (by simp)
  dsimp only at h
  rcases h3 : parse_number r2 with _ | ⟨r3, n3⟩ <;> rw [h3] at h
  · exact absurd h (by simp)
  dsimp only at h
  rcases h4 : stripTag [58] r3 with _ | r4 <;> rw [h4] at h
  · exact absurd h (by simp)
  dsimp only at h
  rcases h5 : parse_number r4 with _ | ⟨r5, n5⟩ <;> rw [h5] at h
  · exact absurd h (by simp)
  dsimp only at h
  rw [Option.some.injEq, Prod.mk.injEq] at h
  obtain ⟨h6, -⟩ := h
  subst h6
  have e1 := parse_number_le _ _ _ h1
  have e2 := stripTag_length _ _ _ h2
  have e3 := parse_number_le _ _ _ h3
  have e4 := stripTag_length _ _ _ h4
  have e5 := parse_number_le _ _ _ h5
  simp only [List.length_cons, List.length_nil] at e2 e4
  omega

theorem parse_ms_le : ∀ (l r : List Nat) (t : Timestamp), parse_ms l = some (r, t) →
    r.length ≤ l.length := by
  intro l r t h
  unfold parse_ms at h
  rcases h1 : parse_number l with _ | ⟨r1, n1⟩ <;> rw [h1] at h
  · exact absurd h (by simp)
  dsimp only at h
  rcases h2 : stripTag [58] r1 with _ | r2 <;> rw [h2] at h
  · exact absurd h (by simp)
  dsimp only at h
  rcases h3 : parse_number r2 with _ | ⟨r3, n3⟩ <;> rw [h3] at h
  · exact absurd h (by simp)
  dsimp only at h
  rw [Option.some.injEq, Prod.mk.injEq] at h
  obtain ⟨h4, -⟩ := h
  subst h4
  have e1 := parse_number_le _ _ _ h1
  have e2 := stripTag_length _ _ _ h2
  have e3 := parse_number_le _ _ _ h3
  simp only [List.length_cons, List.length_nil] at e2
  omega

theorem parse_timestamp_le (l r : List Nat) (t : Timestamp)
    (h : parse_timestamp l = some (r, t)) : r.length ≤ l.length := by
  unfold parse_timestamp at h
  rcases h1 : parse_hms l with _ | p <;> rw [h1] at h <;> dsimp only at h
  · exact parse_ms_le _ _ _ h
  · injection h with h'
    subst h'
    exact parse_hms_le _ _ _ h1

theorem parse_dash_le : ∀ (l r : List Nat), parse_dash l = some r →
    r.length ≤ l.length := by
  intro l r h
  unfold parse_dash at h
  split at h <;>
    first
      | (injection h with h'
         subst h'
         simp only [List.length_cons]
         omega)
      | exact absurd h (by simp)

theorem parse_range_lt (l r : List Nat) (res : RangeResult)
    (h : parse_range l = some (r, res)) : r.length < l.length := by
  unfold parse_range at h
  rcases h1 : stripTag [40] l with _ | r1 <;> rw [h1] at h
  · exact absurd h (by simp)
  dsimp only at h
  rcases h2 : parse_timestamp r1 with _ | ⟨r2, ts⟩ <;> rw [h2] at h
  · exact absurd h (by simp)
  dsimp only at h
  rcases h3 : parse_dash r2 with _ | r3 <;> rw [h3] at h
  · exact absurd h (by simp)
  dsimp only at h
  rcases h4 : parse_timestamp r3 with _ | ⟨r4, te⟩ <;> rw [h4] at h
  · exact absurd h (by simp)
  dsimp only at h
  rcases h5 : stripTag [41] r4 with _ | r5 <;> rw [h5] at h
  · exact absurd h (by simp)
  dsimp only at h
  rw [Option.some.injEq, Prod.mk.injEq] at h
  obtain ⟨h6, -⟩ := h
  subst h6
  have e1 := stripTag_length _ _ _ h1
  have e2 := parse_timestamp_le _ _ _ h2
  have e3 := parse_dash_le _ _ h3
  have e4 := parse_timestamp_le _ _ _ h4
  have e5 := stripTag_length _ _ _ h5
  simp only [List.length_cons, List.length_nil] at e1 e5
  omega

theorem scanAux_inv (input : List Nat) :
    ∀ (fuel s : Nat) (rs : List ParsedRange), scanAux input fuel s = Except.ok rs →
      (∀ r ∈ rs, s ≤ r.start_pos ∧ r.start_pos < r.end_pos) ∧
      rs.Pairwise (fun a b => a.end_pos ≤ b.start_pos ∧ a.start_pos < b.start_pos) := by
  intro fuel
  induction fuel with
  | zero =>
    intro s rs h
    simp only [scanAux] at h
    cases h
    exact ⟨by simp, List.Pairwise.nil⟩
  | succ fuel ih =>
    intro s rs h
    simp only [scanAux] at h
    rcases hf : findFrom input s with _ | abs <;> rw [hf] at h
    · cases h
      exact ⟨by simp, List.Pairwise.nil⟩
    dsimp only at h
    have habs : s ≤ abs := findFrom_le input s abs hf
    rcases hp : parse_range (input.drop abs) with _ | ⟨rest, result⟩ <;> rw [hp] at h
    · dsimp only at h
      rcases hl : looseAt (input.drop abs) with _ | m <;> rw [hl] at h
      · dsimp only at h
        obtain ⟨hmem, hpw⟩ := ih (abs + 1) rs h
        refine ⟨fun r hr => ?_, hpw⟩
        obtain ⟨hr1, hr2⟩ := hmem r hr
        exact ⟨by omega, hr2⟩
      · exact absurd h (by simp)
    · dsimp only at h
      rcases hs : scanAux input fuel (abs + ((input.drop abs).length - rest.length))
        with e | rs' <;> rw [hs] at h
      · exact absurd h (by simp)
      dsimp only at h
      cases h
      have hlen : rest.length < (input.drop abs).length := parse_range_lt _ _ _ hp
      obtain ⟨hmem, hpw⟩ := ih _ _ hs
      constructor
      · intro r hr
        rcases List.mem_cons.mp hr with rfl | hr'
        · refine ⟨habs, ?_⟩
          simp only
          omega
        · obtain ⟨h1, h2⟩ := hmem r hr'
          exact ⟨by omega, h2⟩
      · refine List.Pairwise.cons (fun b hb => ?_) hpw
        obtain ⟨hb1, -⟩ := hmem b hb
        simp only
        exact ⟨hb1, by omega⟩

theorem natDecAux_zero : ∀ (fuel : Nat) (acc : List Nat), natDecAux fuel 0 acc = acc := by
  intro fuel acc
  cases fuel <;> simp [natDecAux]

theorem natDecAux_eq : ∀ (fuel n : Nat) (acc : List Nat), 0 < n → n < 10 ^ fuel →
    natDecAux fuel n acc = decRep n ++ acc := by
  intro fuel
  induction fuel with
  | zero =>
    intro n acc h1 h2
    simp at h2
    omega
  | succ fuel ih =>
    intro n acc h1 h2
    have hne : n ≠ 0 := by omega
    simp only [natDecAux, if_neg hne]
    by_cases hq : n / 10 = 0
    · rw [hq, natDecAux_zero]
      have hn10 : n < 10 := (Nat.div_eq_zero_iff (by norm_num)).mp hq
      have hd : Nat.digits 10 n = [n] := by
        rw [Nat.digits_def' (by norm_num : (1:Nat) < 10) h1, hq, Nat.digits_zero,
          Nat.mod_eq_of_lt hn10]
      rw [Nat.mod_eq_of_lt hn10]
      simp [decRep, hd]
    · have hq1 : 0 < n / 10 := Nat.pos_of_ne_zero hq
      have hlt : n / 10 < 10 ^ fuel := by
        apply Nat.div_lt_of_lt_mul
        rw [← pow_succ']
        exact h2
      rw [ih (n / 10) _ hq1 hlt]
      have hd : Nat.digits 10 n = n % 10 :: Nat.digits 10 (n / 10) :=
        Nat.digits_def' (by norm_num : (1:Nat) < 10) h1
      simp [decRep, hd, List.append_assoc]

theorem natDec_eq (n : Nat) (h : n < 10 ^ 12) : natDec n = decRepSpec n := by
  unfold natDec decRepSpec
  by_cases h0 : n = 0
  · simp [h0]
  · rw [if_neg h0, if_neg h0, natDecAux_eq 12 n [] (Nat.pos_of_ne_zero h0) h,
      List.append_nil]

theorem decRepSpec_singleton (n : Nat) (h : n < 10) : decRepSpec n = [48 + n] := by
  unfold decRepSpec
  by_cases h0 : n = 0
  · simp [h0]
  · rw [if_neg h0]
    have hd : Nat.digits 10 n = [n] := by
      rw [Nat.digits_def' (by norm_num : (1:Nat) < 10) (Nat.pos_of_ne_zero h0),
        Nat.mod_eq_of_lt h, Nat.div_eq_of_lt h, Nat.digits_zero]
    simp [decRep, hd]

theorem pad2_eq (n : Nat) (h : n < 10 ^ 12) : pad2 n = pad2Spec n := by
  unfold pad2 pad2Spec
  by_cases h10 : n < 10
  · rw [if_pos h10, if_pos h10, decRepSpec_singleton n h10]
  · rw [if_neg h10, if_neg h10, natDec_eq n h]

theorem decRepSpec_ne_nil (n : Nat) : decRepSpec n ≠ [] := by
  unfold decRepSpec
  by_cases h0 : n = 0
  · simp [h0]
  · rw [if_neg h0]
    unfold decRep
    simp only [ne_eq, List.reverse_eq_nil_iff, List.map_eq_nil_iff]
    exact Nat.digits_ne_nil_iff_ne_zero.mpr h0

theorem decRepSpec_digits (n : Nat) : ∀ c ∈ decRepSpec n, 48 ≤ c ∧ c ≤ 57 := by
  intro c hc
  unfold decRepSpec at hc
  by_cases h0 : n = 0
  · rw [if_pos h0] at hc
    simp at hc
    omega
  · rw [if_neg h0] at hc
    unfold decRep at hc
    rw [List.mem_reverse] at hc
    obtain ⟨d, hd, rfl⟩ := List.mem_map.mp hc
    have := Nat.digits_lt_base (by norm_num : (1:Nat) < 10) hd
    omega

theorem decRepSpec_len_two (n : Nat) (h1 : 10 ≤ n) (h2 : n < 100) :
    (decRepSpec n).length = 2 := by
  unfold decRepSpec
  rw [if_neg (by omega)]
  have hq1 : 0 < n / 10 := Nat.div_pos h1 (by norm_num)
  have hq2 : n / 10 < 10 := Nat.div_lt_of_lt_mul (by omega)
  have hd : Nat.digits 10 n = [n % 10, n / 10] := by
    rw [Nat.digits_def' (by norm_num : (1:Nat) < 10) (by omega),
      Nat.digits_def' (by norm_num : (1:Nat) < 10) hq1,
      Nat.mod_eq_of_lt hq2, Nat.div_eq_of_lt hq2, Nat.digits_zero]
  simp [decRep, hd]

theorem pad2Spec_len (n : Nat) (h : n < 60) : (pad2Spec n).length = 2 := by
  unfold pad2Spec
  by_cases h10 : n < 10
  · rw [if_pos h10, decRepSpec_singleton n h10]
    rfl
  · rw [if_neg h10]
    exact decRepSpec_len_two n (by omega) (by omega)

theorem pad2Spec_digits (n : Nat) : ∀ c ∈ pad2Spec n, 48 ≤ c ∧ c ≤ 57 := by
  intro c hc
  unfold pad2Spec at hc
  by_cases h10 : n < 10
  · rw [if_pos h10] at hc
    rcases List.mem_cons.mp hc with rfl | hc'
    · omega
    · exact decRepSpec_digits n c hc'
  · rw [if_neg h10] at hc
    exact decRepSpec_digits n c hc

theorem chunksSpec_cons_shape (input : List Nat) (r : ParsedRange)
    (rest : List ParsedRange) :
    ∃ c cs, chunksSpec input (r :: rest) = (r :: c) :: cs := by
  simp only [chunksSpec]
  cases hc : chunksSpec input rest with
  | nil => exact ⟨[], [], rfl⟩
  | cons c cs =>
    cases c with
    | nil => exact ⟨[], [] :: cs, rfl⟩
    | cons r2 t =>
      dsimp only
      by_cases hj : plusJoinedPos input r.end_pos r2
      · rw [if_pos hj]
        exact ⟨r2 :: t, cs, rfl⟩
      · rw [if_neg hj]
        exact ⟨[], (r2 :: t) :: cs, rfl⟩

theorem chunksSpec_cons (input : List Nat) (r : ParsedRange) (rest : List ParsedRange) :
    chunksSpec input (r :: rest) = chunksCont input [r] r.end_pos rest := by
  simp only [chunksSpec, chunksCont]
  cases hc : chunksSpec input rest with
  | nil => rfl
  | cons c cs =>
    cases c with
    | nil => rfl
    | cons r2 t =>
      dsimp only
      by_cases hj : plusJoinedPos input r.end_pos r2
      · rw [if_pos hj, if_pos hj]
        rfl
      · rw [if_neg hj, if_neg hj]

theorem chunksCont_joined (input : List Nat) (G : List ParsedRange) (lastEnd : Nat)
    (r2 : ParsedRange) (rest2 : List ParsedRange)
    (hj : plusJoinedPos input lastEnd r2) :
    chunksCont input G lastEnd (r2 :: rest2)
      = chunksCont input (G ++ [r2]) r2.end_pos rest2 := by
  simp only [chunksCont, chunksSpec]
  cases hc : chunksSpec input rest2 with
  | nil =>
    dsimp only
    rw [if_pos hj]
  | cons c cs =>
    cases c with
    | nil =>
      dsimp only
      rw [if_pos hj]
    | cons r3 t =>
      dsimp only
      by_cases hj2 : plusJoinedPos input r2.end_pos r3
      · rw [if_pos hj2]
        dsimp only
        rw [if_pos hj]
        simp only [List.append_assoc, List.singleton_append]
        rw [if_pos hj2]
      · rw [if_neg hj2]
        dsimp only
        rw [if_pos hj]
        rw [if_neg hj2]

theorem chunksCont_notjoined (input : List Nat) (G : List ParsedRange) (lastEnd : Nat)
    (r2 : ParsedRange) (rest2 : List ParsedRange)
    (hj : ¬ plusJoinedPos input lastEnd r2) :
    chunksCont input G lastEnd (r2 :: rest2) = G :: chunksSpec input (r2 :: rest2) := by
  obtain ⟨c, cs, hshape⟩ := chunksSpec_cons_shape input r2 rest2
  unfold chunksCont
  rw [hshape]
  dsimp only
  rw [if_neg hj]

theorem groupAux_chunks (input : List Nat) :
    ∀ (rest : List ParsedRange) (G : List ParsedRange) (lastEnd id : Nat),
      (∀ r ∈ rest, r.duration < u32Mod) →
      groupAux input rest (G.map (fun r => r.text)) (wsum G) lastEnd id
        = linesSpecAux id (chunksCont input G lastEnd rest) := by
  intro rest
  induction rest with
  | nil =>
    intro G lastEnd id _
    simp only [groupAux, chunksCont, chunksSpec, linesSpecAux, lineOf, mkLine]
  | cons r2 rest2 ih =>
    intro G lastEnd id hdur
    by_cases hj : plusJoinedPos input lastEnd r2
    · have hj' : trimBytes (sliceT input lastEnd r2.start_pos) = [43] := hj
      simp only [groupAux, if_pos hj']
      rw [show (G.map (fun r => r.text)) ++ [r2.text]
            = (G ++ [r2]).map (fun r => r.text) by simp]
      rw [show (wsum G + r2.duration) % u32Mod = wsum (G ++ [r2]) by
            simp [wsum, List.foldl_append]]
      rw [ih (G ++ [r2]) r2.end_pos id (fun r hr => hdur r (List.mem_cons_of_mem _ hr))]
      rw [chunksCont_joined input G lastEnd r2 rest2 hj]
    · have hj' : ¬ trimBytes (sliceT input lastEnd r2.start_pos) = [43] := hj
      simp only [groupAux, if_neg hj']
      have hd2 : r2.duration < u32Mod := hdur r2 (List.mem_cons_self _ _)
      have hw : wsum [r2] = r2.duration := by
        simp only [wsum, List.foldl_cons, List.foldl_nil, Nat.zero_add]
        exact Nat.mod_eq_of_lt hd2
      rw [show [r2.text] = [r2].map (fun r => r.text) by simp, ← hw]
      rw [ih [r2] r2.end_pos (id + 1) (fun r hr => hdur r (List.mem_cons_of_mem _ hr))]
      rw [← chunksSpec_cons input r2 rest2]
      rw [chunksCont_notjoined input G lastEnd r2 rest2 hj]
      simp only [linesSpecAux, lineOf, mkLine]

-- #### Claim theorems

/-- C1: the claim says clean_script is total and never panics, and that a
hard scan failure or an empty scan returns the input verbatim.  The
fallback branches do return the input verbatim (second and third
conjuncts), but on two adjacent ranges separated by one space the code
panics: the space is swallowed once as the trailing space of the first
range and again as the leading space of the second, making
`text_start = 12 > text_end = 11`, and `&input[12..11]` panics
(parser.rs line 279).  The `none` result is the model's panic value. -/
theorem clean_script_panics_on_adjacent_ranges :
    clean_script (strBytes "(0:00-0:10) (0:20-0:25)") = none ∧
    clean_script (strBytes "(1:00-2:zz)") = some (strBytes "(1:00-2:zz)") ∧
    clean_script (strBytes "no ranges here") = some (strBytes "no ranges here") :=
  ⟨rfl, rfl, rfl⟩

/-- C2: when scanning succeeds with zero ranges, calculate_durations
itself returns an Ok with an empty `lines`, and the `/timestamp` handler
(the aggregator's caller) turns exactly this case into the
"No valid timestamps found" usage error, provided the request passed the
handler's minimum-length-2 validation. -/
theorem calculate_durations_no_ranges_reports_usage_error :
    ∀ (content : List Nat), 2 ≤ charCount content →
      find_all_ranges content = Except.ok [] →
      calculate_durations content = Except.ok ⟨[], ⟨0, strBytes "0:00"⟩⟩ ∧
      timestamp_route content = ApiResult.noTimestamps := by
  intro content h2 hscan
  have h0 : format_duration 0 = strBytes "0:00" := rfl
  have h1 : calculate_durations content = Except.ok ⟨[], ⟨0, format_duration 0⟩⟩ := by
    unfold calculate_durations
    rw [hscan]
    dsimp only [firstDefect, groupLines, grandTotal, List.foldl]
  rw [h0] at h1
  refine ⟨h1, ?_⟩
  unfold timestamp_route
  rw [if_neg (by omega), h1]
  exact rfl

theorem calculate_durations_no_ranges_witness :
    2 ≤ charCount (strBytes "hello") ∧
    (calculate_durations (strBytes "hello") = Except.ok ⟨[], ⟨0, strBytes "0:00"⟩⟩ ∧
      timestamp_route (strBytes "hello") = ApiResult.noTimestamps) :=
  ⟨by decide, calculate_durations_no_ranges_reports_usage_error _ (by decide) rfl⟩

/-- C3: the claim says clean_script excises a maximal plus-joined chain as
one unit, including chains of three or more.  The code only looks one
range ahead (an `if`, parser.rs line 263, against the aggregator's
`while`, line 202): on a three-range chain it excises the first pair as a
unit and the third range separately, leaving a stray `+` in the output,
`"A+B"` instead of the one-unit excision `"A B"`. -/
theorem clean_script_three_chain_not_one_unit :
    clean_script (strBytes "A (0:00-0:10) + (0:20-0:25) + (0:30-0:35) B")
      = some (strBytes "A+B") ∧
    strBytes "A+B" ≠ strBytes "A B" :=
  ⟨rfl, by decide⟩

/-- C4: the claim (and the spec's own test) says
`"Start (0:00-0:10) end"` cleans to `"Start end"`.  The code swallows the
space on both sides of the range and inserts a joining space only when NO
space was swallowed (`!before_space && !after_space`, parser.rs line 298,
contradicting its own comment on line 281), so it returns `"Startend"`,
fusing the two words. -/
theorem clean_script_space_example_fuses_words :
    clean_script (strBytes "Start (0:00-0:10) end") = some (strBytes "Startend") ∧
    strBytes "Startend" ≠ strBytes "Start end" :=
  ⟨rfl, by decide⟩

/-- C5 (amended): for every range whose minutes and seconds are at most 59,
whose end is not before its start, and whose exact end total seconds fits
in `u32` (below `2^32`), the duration is computed exactly by the claimed
formula — the hours field is not bounded at any calendar bound such as
24h, as the `"(1:00:00-2:30:00)"` example (duration 5400, `"90:00"`)
shows.  The claim's "arbitrarily large hours", however, fails at `u32`
wraparound (see the counterexample theorem). -/
theorem hours_unbounded_exact_up_to_u32 :
    (∀ s e : Timestamp, s.minutes ≤ 59 → s.seconds ≤ 59 → e.minutes ≤ 59 →
      e.seconds ≤ 59 → toSecondsExact s ≤ toSecondsExact e →
      toSecondsExact e < u32Mod →
      rangeResultOf s e = ⟨toSecondsExact e - toSecondsExact s, RangeError.none⟩) ∧
    calculate_durations (strBytes "(1:00:00-2:30:00)") =
      Except.ok ⟨[⟨1, strBytes "(1:00:00-2:30:00)", ⟨5400, strBytes "90:00"⟩⟩],
        ⟨5400, strBytes "90:00"⟩⟩ := by
  refine ⟨?_, rfl⟩
  intro s e hm hs2 hm2 hs3 hle hlt
  have hse : toSecondsExact s < u32Mod := Nat.lt_of_le_of_lt hle hlt
  have h1 : s.to_seconds = toSecondsExact s := Nat.mod_eq_of_lt hse
  have h2 : e.to_seconds = toSecondsExact e := Nat.mod_eq_of_lt hlt
  unfold rangeResultOf
  rw [if_neg (by omega), if_neg (by omega), if_neg (by omega), if_neg (by omega),
    h1, h2, if_neg (by omega)]

theorem hours_unbounded_exact_up_to_u32_witness :
    toSecondsExact (⟨2, 30, 0⟩ : Timestamp) < u32Mod ∧
    rangeResultOf ⟨1, 0, 0⟩ ⟨2, 30, 0⟩ = ⟨5400, RangeError.none⟩ :=
  ⟨by decide, hours_unbounded_exact_up_to_u32.1 ⟨1, 0, 0⟩ ⟨2, 30, 0⟩ (by decide)
    (by decide) (by decide) (by decide) (by decide) (by decide)⟩

/-- C5 counterexample: hours are `u32`-bounded in effect: at
`"(0:00:00-1193047:00:00)"` the end's total seconds `1193047 * 3600 =
4294969200` wraps modulo `2^32` to `1904`, so the computed duration is
1904, not the exact difference required by the claim for arbitrarily
large hours. -/
theorem hours_overflow_wraps_duration :
    calculate_durations (strBytes "(0:00:00-1193047:00:00)") =
      Except.ok ⟨[⟨1, strBytes "(0:00:00-1193047:00:00)", ⟨1904, strBytes "31:44"⟩⟩],
        ⟨1904, strBytes "31:44"⟩⟩ ∧
    toSecondsExact ⟨1193047, 0, 0⟩ - toSecondsExact ⟨0, 0, 0⟩ ≠ 1904 :=
  ⟨rfl, by decide⟩

/-- C6: the validation of a parsed range applies its checks in exactly the
claimed short-circuit precedence (start minutes, end minutes, start
seconds, end seconds, end-before-start, else valid with the duration
difference), stated as equality with the cascade transcribed from the
spec; and the two bound-enforcement examples hold: start seconds win over
everything later, end seconds are flagged with the offending value 60. -/
theorem validator_precedence :
    (∀ s e : Timestamp, rangeResultOf s e = validateSpec s e) ∧
    calculate_durations (strBytes "(0:60-1:00)") =
      Except.error (CalcError.invalidSeconds (strBytes "(0:60-1:00)") 60) ∧
    calculate_durations (strBytes "(0:00-0:60)") =
      Except.error (CalcError.invalidSeconds (strBytes "(0:00-0:60)") 60) :=
  ⟨fun _ _ => rfl, rfl, rfl⟩

/-- C7: at a `(` where the strict range parse fails, the scanner fails
hard exactly when the loose pattern matches beginning at that `(`
(carrying the matched substring), and otherwise advances the cursor by
one character past the `(`; and the two examples: `"(1:00x2:00)"` (no
dash token) scans to zero ranges without error, while `"(1:00-2:zz)"`
(dash present, numeric parse fails) is flagged malformed. -/
theorem scanner_malformed_detection :
    (∀ (input : List Nat) (fuel s abs : Nat) (m : List Nat),
      findFrom input s = some abs →
      parse_range (input.drop abs) = none →
      (looseAt (input.drop abs) = some m →
        scanAux input (fuel + 1) s = Except.error m) ∧
      (looseAt (input.drop abs) = none →
        scanAux input (fuel + 1) s = scanAux input fuel (abs + 1))) ∧
    find_all_ranges (strBytes "(1:00x2:00)") = Except.ok [] ∧
    find_all_ranges (strBytes "(1:00-2:zz)") = Except.error (strBytes "(1:00-2:zz)") := by
  refine ⟨?_, rfl, rfl⟩
  intro input fuel s abs m hf hp
  constructor
  · intro hl
    simp only [scanAux]
    rw [hf]
    dsimp only
    rw [hp]
    dsimp only
    rw [hl]
  · intro hl
    simp only [scanAux]
    rw [hf]
    dsimp only
    rw [hp]
    dsimp only
    rw [hl]

theorem scanner_malformed_detection_witness :
    scanAux (strBytes "(1:00-2:zz)") 11 0 = Except.error (strBytes "(1:00-2:zz)") :=
  (scanner_malformed_detection.1 (strBytes "(1:00-2:zz)") 10 0 0
    (strBytes "(1:00-2:zz)") rfl rfl).1 rfl

/-- C8 (amended): the grouping stage of calculate_durations merges every
maximal run of consecutively plus-joined ranges into one Line whose input
is the member texts rejoined with `" + "` and whose seconds is the sum of
the member durations in the program's `u32` accumulator, that is modulo
`2^32` (equal to the exact sum whenever that sum is below `2^32`, as in
the `"(0:00-0:10) + (0:20-0:25)"` example, one Line with seconds 15); the
unreduced exact sum of the claim fails at wraparound (see the
counterexample theorem). -/
theorem aggregator_plus_grouping :
    (∀ (input : List Nat) (ranges : List ParsedRange),
      (∀ r ∈ ranges, r.duration < u32Mod) →
      groupLines input ranges = linesSpec input ranges) ∧
    calculate_durations (strBytes "(0:00-0:10) + (0:20-0:25)") =
      Except.ok ⟨[⟨1, strBytes "(0:00-0:10) + (0:20-0:25)", ⟨15, strBytes "0:15"⟩⟩],
        ⟨15, strBytes "0:15"⟩⟩ := by
  constructor
  · intro input ranges hdur
    cases ranges with
    | nil => rfl
    | cons r rest =>
      have hd : r.duration < u32Mod := hdur r (List.mem_cons_self _ _)
      have hw : wsum [r] = r.duration := by
        simp only [wsum, List.foldl_cons, List.foldl_nil, Nat.zero_add]
        exact Nat.mod_eq_of_lt hd
      show groupAux input rest [r.text] r.duration r.end_pos 1 = _
      rw [show [r.text] = [r].map (fun x => x.text) from by simp, ← hw]
      rw [groupAux_chunks input rest [r] r.end_pos 1
        (fun x hx => hdur x (List.mem_cons_of_mem _ hx))]
      rw [← chunksSpec_cons input r rest]
      rfl
  · rfl

theorem aggregator_plus_grouping_witness :
    (∀ r ∈ ([⟨0, 11, strBytes "(0:00-0:10)", 10, RangeError.none⟩,
        ⟨14, 25, strBytes "(0:20-0:25)", 5, RangeError.none⟩] : List ParsedRange),
      r.duration < u32Mod) ∧
    groupLines (strBytes "(0:00-0:10) + (0:20-0:25)")
        [⟨0, 11, strBytes "(0:00-0:10)", 10, RangeError.none⟩,
         ⟨14, 25, strBytes "(0:20-0:25)", 5, RangeError.none⟩]
      = linesSpec (strBytes "(0:00-0:10) + (0:20-0:25)")
        [⟨0, 11, strBytes "(0:00-0:10)", 10, RangeError.none⟩,
         ⟨14, 25, strBytes "(0:20-0:25)", 5, RangeError.none⟩] :=
  ⟨by decide, aggregator_plus_grouping.1 _ _ (by decide)⟩

/-- C8 counterexample: with two plus-joined ranges of duration
4294962000 each, the merged Line's seconds is the `u32`-wrapped
4294956704, not the exact sum 8589924000. -/
theorem group_sum_wraps_u32 :
    find_all_ranges (strBytes "(0:00:00-1193045:00:00) + (0:00:00-1193045:00:00)") =
      Except.ok [⟨0, 23, strBytes "(0:00:00-1193045:00:00)", 4294962000, RangeError.none⟩,
        ⟨26, 49, strBytes "(0:00:00-1193045:00:00)", 4294962000, RangeError.none⟩] ∧
    calculate_durations (strBytes "(0:00:00-1193045:00:00) + (0:00:00-1193045:00:00)") =
      Except.ok ⟨[⟨1, strBytes "(0:00:00-1193045:00:00) + (0:00:00-1193045:00:00)",
        ⟨4294956704, strBytes "71582611:44"⟩⟩], ⟨4294956704, strBytes "71582611:44"⟩⟩ ∧
    4294962000 + 4294962000 ≠ 4294956704 :=
  ⟨rfl, rfl, by decide⟩

/-- C9: the formatted duration of any `u32` total is the decimal numeral
of `total div 60`, a colon, and `total mod 60` zero-padded to width 2:
the minutes part is a nonempty string of ASCII digits (unbounded, never
wrapped at 60), the seconds part is exactly two ASCII digits,
`minutes*60 + seconds = total` with `seconds < 60`, and no hours
component appears. -/
theorem duration_format_law :
    ∀ s : Nat, s < u32Mod →
      format_duration s = formatSpec s ∧
      decRepSpec (s / 60) ≠ [] ∧
      (∀ c ∈ decRepSpec (s / 60), 48 ≤ c ∧ c ≤ 57) ∧
      (pad2Spec (s % 60)).length = 2 ∧
      (∀ c ∈ pad2Spec (s % 60), 48 ≤ c ∧ c ≤ 57) ∧
      s / 60 * 60 + s % 60 = s ∧ s % 60 < 60 := by
  intro s hs
  have hdiv : s / 60 < 10 ^ 12 := by
    have ha : s / 60 ≤ s := Nat.div_le_self s 60
    have hb : u32Mod < 10 ^ 12 := by norm_num [u32Mod]
    omega
  have hmod : s % 60 < 60 := Nat.mod_lt _ (by norm_num)
  have hmod12 : s % 60 < 10 ^ 12 := by
    have : (60 : Nat) < 10 ^ 12 := by norm_num
    omega
  refine ⟨?_, decRepSpec_ne_nil _, decRepSpec_digits _, pad2Spec_len _ hmod,
    pad2Spec_digits _, by omega, hmod⟩
  unfold format_duration formatSpec
  rw [natDec_eq _ hdiv, pad2_eq _ hmod12]

theorem duration_format_law_witness :
    5400 < u32Mod ∧
    (format_duration 5400 = formatSpec 5400 ∧
      decRepSpec (5400 / 60) ≠ [] ∧
      (∀ c ∈ decRepSpec (5400 / 60), 48 ≤ c ∧ c ≤ 57) ∧
      (pad2Spec (5400 % 60)).length = 2 ∧
      (∀ c ∈ pad2Spec (5400 % 60), 48 ≤ c ∧ c ≤ 57) ∧
      5400 / 60 * 60 + 5400 % 60 = 5400 ∧ 5400 % 60 < 60) :=
  ⟨by decide, duration_format_law 5400 (by decide)⟩

/-- C10: whenever scanning succeeds, every range spans at least one byte,
the ranges are pairwise non-overlapping (each range's end offset is at
most every later range's start offset), and the start offsets are
strictly increasing. -/
theorem scanner_ranges_sorted_disjoint :
    ∀ (input : List Nat) (rs : List ParsedRange),
      find_all_ranges input = Except.ok rs →
      (∀ r ∈ rs, r.start_pos < r.end_pos) ∧
      rs.Pairwise (fun a b => a.end_pos ≤ b.start_pos) ∧
      rs.Pairwise (fun a b => a.start_pos < b.start_pos) := by
  intro input rs h
  obtain ⟨hmem, hpw⟩ := scanAux_inv input _ _ _ h
  exact ⟨fun r hr => (hmem r hr).2,
    hpw.imp (fun hab => hab.1),
    hpw.imp (fun hab => hab.2)⟩

theorem scanner_ranges_sorted_disjoint_witness :
    find_all_ranges (strBytes "(0:00-0:10) (0:20-0:25)") =
      Except.ok [⟨0, 11, strBytes "(0:00-0:10)", 10, RangeError.none⟩,
        ⟨12, 23, strBytes "(0:20-0:25)", 5, RangeError.none⟩] ∧
    ((∀ r ∈ ([⟨0, 11, strBytes "(0:00-0:10)", 10, RangeError.none⟩,
        ⟨12, 23, strBytes "(0:20-0:25)", 5, RangeError.none⟩] : List ParsedRange),
        r.start_pos < r.end_pos) ∧
      List.Pairwise (fun a b => a.end_pos ≤ b.start_pos)
        ([⟨0, 11, strBytes "(0:00-0:10)", 10, RangeError.none⟩,
          ⟨12, 23, strBytes "(0:20-0:25)", 5, RangeError.none⟩] : List ParsedRange) ∧
      List.Pairwise (fun a b => a.start_pos < b.start_pos)
        ([⟨0, 11, strBytes "(0:00-0:10)", 10, RangeError.none⟩,
          ⟨12, 23, strBytes "(0:20-0:25)", 5, RangeError.none⟩] : List ParsedRange)) :=
  ⟨rfl, scanner_ranges_sorted_disjoint (strBytes "(0:00-0:10) (0:20-0:25)") _ rfl⟩
